import Mathlib

/-!
# Verification of the translation core of `floating_translator.py`

A shallow embedding of the cache, persistence, response-normalisation,
rate-limiting and request/translation logic of the repository
`futurediffusion/fast-translator` (single source file
`src/floating_translator.py`), together with proofs and refutations of the
specification claims about it.

Modelling conventions:
* Python dicts are association lists in insertion order with pairwise
  distinct keys (`dictInsert` reproduces Python's assignment semantics:
  replace in place, otherwise append).
* Timestamps are natural-number time units for the cache (`time.time()`
  values only compared and copied there) and rationals for the rate
  limiter (where arithmetic on durations matters).
* Fallible operations return `Option` (`none` = the Python code raises).
-/

set_option maxRecDepth 10000

namespace FastTranslator

/-- A cache key: the `(text, source_lang, target_lang)` triple used as the
dictionary key of `_translation_cache`. -/
structure CacheKey where
  text : String
  sourceLang : String
  targetLang : String
deriving DecidableEq

/-- A cache value: the dict `{"translation": ..., "count": ..., "time": ...}`
stored in `_translation_cache`. -/
structure CacheEntry where
  translation : String
  count : Nat
  time : Nat
deriving DecidableEq

/-- The in-memory cache `_translation_cache`. -/
abbrev Cache := List (CacheKey × CacheEntry)

/-- Dict lookup `d[k]` / `k in d`. -/
def lookup {κ ν : Type} [DecidableEq κ] (k : κ) : List (κ × ν) → Option ν
  | [] => none
  | kv :: rest => if kv.1 = k then some kv.2 else lookup k rest

/-- Python dict assignment `d[k] = v`: replace the value in place when the
key is present, otherwise append the new binding at the end. -/
def dictInsert {κ ν : Type} [DecidableEq κ] (k : κ) (v : ν) :
    List (κ × ν) → List (κ × ν)
  | [] => [(k, v)]
  | kv :: rest => if kv.1 = k then (k, v) :: rest else kv :: dictInsert k v rest

/-- The default `max_size` of `_trim_cache`. -/
def MAX_CACHE_SIZE : Nat := 15

/-- The sort key used by `_trim_cache`: Python sorts ascending by
`(-count, -time)`, i.e. descending lexicographically by `(count, time)`. -/
def trimLe (a b : CacheKey × CacheEntry) : Bool :=
  decide (b.2.count < a.2.count) ||
    (decide (a.2.count = b.2.count) && decide (b.2.time ≤ a.2.time))

/-- Function `_trim_cache(max_size)`: when the cache is over the limit, sort the
items with Python's stable sort by `(-count, -time)` and pop every key of
the items past the first `max_size`. -/
def _trim_cache (maxSize : Nat) (c : Cache) : Cache :=
  if c.length ≤ maxSize then c
  else
    let items := c.mergeSort trimLe
    let evicted := (items.drop maxSize).map Prod.fst
    c.filter (fun kv => decide (kv.1 ∉ evicted))

/-- Python `"||".join((text, source_lang, target_lang))`. -/
def joinKey (k : CacheKey) : String :=
  k.text ++ "||" ++ k.sourceLang ++ "||" ++ k.targetLang

/-- Python `s.split("||")` on a list of characters: split at each leftmost
non-overlapping occurrence of two consecutive bars. -/
def splitBars : List Char → List (List Char)
  | [] => [[]]
  | [c] => [[c]]
  | c1 :: c2 :: rest =>
    if c1 = '|' ∧ c2 = '|' then
      [] :: splitBars rest
    else
      match splitBars (c2 :: rest) with
      | [] => [[c1]]
      | h :: t => (c1 :: h) :: t

/-- The persisted cache file: the JSON object written by `_save_cache`,
modelled as a string-keyed dict in insertion order.  (Values are restricted
to the well-typed `{"translation", "count", "time"}` shape that the program
itself writes; the loader's legacy branch for plain-string values is not
reachable from files the program writes.) -/
abbrev CacheFile := List (String × CacheEntry)

/-- The dict comprehension in `_save_cache`: the JSON object whose keys are
the `||`-joined cache keys.  Python dict semantics: a duplicate key
overwrites the earlier value in place. -/
def serializeCache (c : Cache) : CacheFile :=
  c.foldl (fun acc kv => dictInsert (joinKey kv.1) kv.2 acc) []

/-- Function `_save_cache()`: trim the cache to `MAX_CACHE_SIZE`, then persist it.
Returns the new in-memory cache together with the written file. -/
def _save_cache (c : Cache) : Cache × CacheFile :=
  let c2 := _trim_cache MAX_CACHE_SIZE c
  (c2, serializeCache c2)

/-- The cache-loading loop at startup: split each persisted key on `"||"`
and keep the entry only when the split has exactly three parts. -/
def loadCache (file : CacheFile) : Cache :=
  file.foldl
    (fun acc kv =>
      match (splitBars kv.1.data).map (fun cs => String.mk cs) with
      | [t, s, g] => dictInsert ⟨t, s, g⟩ kv.2 acc
      | _ => acc)
    []

/-- Function `remove_translation_item(translation)`: collect every key whose entry's
translation equals the argument, pop each collected key, and call
`_save_cache` exactly when at least one key was collected. -/
def remove_translation_item (t : String) (c : Cache) : Cache :=
  let keys := (c.filter (fun kv => decide (kv.2.translation = t))).map Prod.fst
  let c2 := keys.foldl (fun acc k => acc.filter (fun kv => decide (kv.1 ≠ k))) c
  if keys = [] then c else (_save_cache c2).1

/-! ## Response normalisation (`clean_translation`) -/

/-- The whitespace characters stripped by Python `str.strip()` (restricted
to the ASCII whitespace relevant here). -/
def pyWs (c : Char) : Bool :=
  c == ' ' || c == '\t' || c == '\n' || c == '\r'

/-- Python `s.strip()`. -/
def pyStrip (cs : List Char) : List Char :=
  ((cs.dropWhile pyWs).reverse.dropWhile pyWs).reverse

/-- Python `s.strip().splitlines()[0]` for nonempty stripped text: the characters
before the first line-break character. -/
def firstLine (cs : List Char) : List Char :=
  cs.takeWhile (fun c => !(c == '\n' || c == '\r'))

/-- The characters of the `lstrip("*-• ")` call. -/
def bulletChar (c : Char) : Bool :=
  c == '*' || c == '-' || c == '•' || c == ' '

/-- Python `s.strip("*")`. -/
def stripStars (cs : List Char) : List Char :=
  ((cs.dropWhile (fun c => c == '*')).reverse.dropWhile
      (fun c => c == '*')).reverse

/-- Does the text begin with two consecutive asterisks? -/
def starsAt : List Char → Bool
  | '*' :: '*' :: _ => true
  | _ => false

/-- Lazy expansion of `(.+?)\*\*` after an opening `\*\*`: the shortest
nonempty group of characters followed by two asterisks. -/
def findInner : List Char → Option (List Char)
  | [] => none
  | c :: rest =>
    if starsAt rest then some [c] else (findInner rest).map (fun l => c :: l)

/-- Python `re.search(r"\*\*(.+?)\*\*", line)`: try each starting position from
the left; at a position opening with `\*\*`, take the lazily-shortest
nonempty group closed by `\*\*`; on failure move one character right. -/
def searchEmph : List Char → Option (List Char)
  | [] => none
  | c :: rest =>
    match c, rest with
    | '*', '*' :: rest2 =>
      (match findInner rest2 with
       | some inner => some inner
       | none => searchEmph rest)
    | _, _ => searchEmph rest

/-- Function `clean_translation` from the source.  Returns `none` exactly when the
Python code raises (an `IndexError` from `splitlines()[0]` on nonempty
input that strips to nothing). -/
def clean_translation (text : String) : Option String :=
  if text = "" then some text
  else
    let stripped := pyStrip text.data
    if stripped = [] then none
    else
      let line0 := firstLine stripped
      let line1 := pyStrip (line0.dropWhile bulletChar)
      match searchEmph line1 with
      | some inner => some (String.mk (pyStrip inner))
      | none =>
        let line2 :=
          if starsAt line1 && starsAt line1.reverse then
            (line1.drop 2).take (line1.length - 4)
          else line1
        some (String.mk (stripStars line2))

/-! ## Rate limiter (`_wait_rate_limit`) -/

/-- Constant `MIN_REQUEST_INTERVAL = 1.0`, in rational time units. -/
def MIN_REQUEST_INTERVAL : ℚ := 1

/-- Function `_wait_rate_limit()`: given the value `now` of the first `time.time()`
call and the value `last` read from `LAST_REQUEST_TIME`, return the sleep
duration together with the new `LAST_REQUEST_TIME`.  The new timestamp is
the time at which the function returns — immediately before the HTTP
request is issued — namely `now + sleep`. -/
def _wait_rate_limit (now last : ℚ) : ℚ × ℚ :=
  let elapsed := now - last
  if elapsed < MIN_REQUEST_INTERVAL then
    (MIN_REQUEST_INTERVAL - elapsed, now + (MIN_REQUEST_INTERVAL - elapsed))
  else (0, now)

/-- The time at which a caller of `_wait_rate_limit` proceeds to issue its
network call. -/
def issueTime (now last : ℚ) : ℚ := (_wait_rate_limit now last).2

/-- Two concurrent callers that both read `LAST_REQUEST_TIME = last`
before either has written it back — the code takes no lock, and
`time.sleep` runs between the read and the write, so this interleaving is
reachable.  Caller A enters at `tA`, caller B at `tB`; each computes its
issue time from the same stale `last`. -/
def concurrentIssueTimes (last tA tB : ℚ) : ℚ × ℚ :=
  (issueTime tA last, issueTime tB last)

/-! ## The translation routine (`translate_text`) -/

/-- The outcome of one primary-provider HTTP attempt as the code observes
it: a successfully parsed response text, an `HTTPError` with a status
code, or any other exception (network failure, missing JSON field, ...). -/
inductive PrimaryResp where
  | ok (raw : String)
  | httpErr (code : Nat)
  | failure
deriving DecidableEq

/-- The external environment one `translate_text` call runs against. -/
structure Env where
  /-- Result of `detect_language` (total: the Python function catches its
  own exceptions and falls back to a fixed code). -/
  detect : String → String
  /-- Outcome of primary attempt number `i` (`i` ranges over `0, 1, 2`). -/
  primary : Nat → PrimaryResp
  /-- Whether the optional `googletrans` import succeeded
  (`GoogleTranslator is not None`). -/
  googleAvailable : Bool
  /-- The fallback `translator.translate(text, src, dest).text` call:
  `some t` returns text `t`, `none` raises. -/
  google : String → String → String → Option String
  /-- Value of `time.time()` used for cache writes. -/
  now : Nat

/-- Observable effects of a `translate_text` call, in order. -/
inductive Event where
  /-- Call of `_wait_rate_limit()`. -/
  | rateWait
  /-- HTTP request to the primary provider, attempt number `i`. -/
  | primaryCall (i : Nat)
  /-- Backoff `time.sleep(2 ** attempt + 1)` of this duration. -/
  | backoffSleep (dur : Nat)
  /-- Call into the `googletrans` fallback provider. -/
  | secondaryCall
  /-- Call of `_save_cache()`. -/
  | saved
deriving DecidableEq

/-- Result of a modelled `translate_text` call: the returned string, the
new cache, and the ordered observable events. -/
structure TTResult where
  result : String
  cache : Cache
  events : List Event
deriving DecidableEq

/-- The `for attempt in range(3)` retry loop of `translate_text`: returns
the cleaned translation when some attempt yields a nonempty response text,
`none` when the loop ends by `break` or exhaustion, together with the
events of the loop.  A nonempty response returns immediately; an empty
(falsy) response simply lets the loop move to the next attempt; a 429
before the last attempt sleeps `2 ** attempt + 1` and retries; any other
error breaks out of the loop. -/
def primaryLoop (env : Env) : Nat → Nat → Option String × List Event
  | 0, _ => (none, [])
  | fuel + 1, attempt =>
    match env.primary attempt with
    | .ok raw =>
      let rawText := pyStrip raw.data
      if rawText = [] then
        let r := primaryLoop env fuel (attempt + 1)
        (r.1, .rateWait :: .primaryCall attempt :: r.2)
      else
        (some ((clean_translation (String.mk rawText)).getD (String.mk rawText)),
         [.rateWait, .primaryCall attempt])
    | .httpErr code =>
      if code = 429 ∧ attempt < 2 then
        let r := primaryLoop env fuel (attempt + 1)
        (r.1,
         .rateWait :: .primaryCall attempt ::
           .backoffSleep (2 ^ attempt + 1) :: r.2)
      else (none, [.rateWait, .primaryCall attempt])
    | .failure => (none, [.rateWait, .primaryCall attempt])

/-- The whole `for attempt in range(3)` loop: three iterations starting at
attempt 0. -/
def primaryAttempts (env : Env) : Option String × List Event :=
  primaryLoop env 3 0

/-- Function `translate_text(text, source_lang, target_lang)` run against
environment `env` and cache `c`.  The function is total: every exception
raised inside is caught (the embedding returns the fallback value instead
of propagating anything).  The `clean_translation ... |>.getD` default is
unreachable: the guard `if raw_text:` guarantees a nonempty pre-stripped
argument, on which `clean_translation` cannot fail. -/
def translate_text (env : Env) (text source_lang target_lang : String)
    (c : Cache) : TTResult :=
  let src := if source_lang = "auto" then env.detect text else source_lang
  let key : CacheKey := ⟨text, src, target_lang⟩
  match lookup key c with
  | some entry =>
    let c2 := dictInsert key
      ⟨entry.translation, entry.count + 1, env.now⟩ c
    ⟨entry.translation, (_save_cache c2).1, [.saved]⟩
  | none =>
    let r := primaryAttempts env
    match r.1 with
    | some translated =>
      let c2 := dictInsert key ⟨translated, 1, env.now⟩ c
      ⟨translated, (_save_cache c2).1, r.2 ++ [.saved]⟩
    | none =>
      if env.googleAvailable then
        match env.google text src target_lang with
        | some translated =>
          let c2 := dictInsert key ⟨translated, 1, env.now⟩ c
          ⟨translated, (_save_cache c2).1, r.2 ++ [.secondaryCall, .saved]⟩
        | none => ⟨text, c, r.2 ++ [.secondaryCall]⟩
      else ⟨text, c, r.2⟩

/-- Predicate picking out primary-provider HTTP attempts in an event
trace. -/
def isPrimaryCall : Event → Bool
  | .primaryCall _ => true
  | _ => false

/-- Predicate picking out backoff sleeps in an event trace. -/
def isBackoff : Event → Bool
  | .backoffSleep _ => true
  | _ => false

/-- A primary attempt that does not produce a usable result: an exception,
an HTTP error, or a successful response whose text is empty after
stripping. -/
def primaryFailed : PrimaryResp → Prop
  | .ok raw => pyStrip raw.data = []
  | .httpErr _ => True
  | .failure => True

/-! ## Result delivery (`on_text_changed` / `_display_translation`) -/

/-- Method `TranslationTask.run`: the queued task calls `translate_text`
and emits the string result through its `translation_ready` signal. -/
def TranslationTask_run (env : Env) (c : Cache)
    (text source_lang target_lang : String) : String :=
  (translate_text env text source_lang target_lang c).result

/-- Method `_display_translation(text)`: the slot connected to every
task's `translation_ready` signal; it stops the loading animation and
unconditionally replaces the label text with the delivered result.  No
generation number exists anywhere in the delivery path. -/
def _display_translation (_label : String) (text : String) : String := text

/-- Delivery of a sequence of completed-task results to the GUI thread in
arrival order: each delivery runs `_display_translation` on the label. -/
def deliverAll (label : String) (results : List String) : String :=
  results.foldl _display_translation label

/-! ## Concrete data used by witnesses and counterexamples -/

/-- An environment whose primary provider always fails hard and that has
no fallback provider. -/
def envDead : Env where
  detect _ := "en"
  primary _ := .failure
  googleAvailable := false
  google _ _ _ := none
  now := 5

/-- An environment whose primary provider always answers HTTP 429 and
whose fallback provider is available and succeeds. -/
def env429 : Env where
  detect _ := "en"
  primary _ := .httpErr 429
  googleAvailable := true
  google _ _ _ := some "GOOGLE"
  now := 9

/-- An environment whose primary provider returns a successful but empty
(whitespace-only) response on the first attempt and a proper response on
the second. -/
def envEmptyThenOk : Env where
  detect _ := "en"
  primary i := if i = 0 then .ok "  " else .ok "**Hello**"
  googleAvailable := true
  google _ _ _ := some "GOOGLE"
  now := 7

/-- An environment whose primary provider always returns an empty
response. -/
def envAllEmpty : Env where
  detect _ := "en"
  primary _ := .ok " "
  googleAvailable := true
  google _ _ _ := some "GOOGLE"
  now := 7

/-- A two-entry cache holding translations for the two requests of the
generation-ordering counterexample. -/
def cacheTwo : Cache :=
  [(⟨"uno", "es", "en"⟩, ⟨"one", 1, 0⟩), (⟨"dos", "es", "en"⟩, ⟨"two", 1, 0⟩)]

/-- A one-entry cache whose source text contains a bar character, breaking
the `||`-joined persistence key. -/
def cacheBar : Cache :=
  [(⟨"a|", "b", "c"⟩, ⟨"t", 1, 0⟩)]

/-- A sixteen-entry cache (one over the limit) with pairwise distinct keys
and strictly increasing use counts, used to exercise eviction. -/
def cacheSixteen : Cache :=
  (List.range 16).map
    (fun i => (⟨String.mk (List.replicate (i + 1) 'a'), "es", "en"⟩,
               ⟨"t", i, 0⟩))

/-- No bar character occurs in the string.  Key components of this shape
survive the `"||"`-join/split round-trip of the persistence layer. -/
abbrev barFree (s : String) : Prop := '|' ∉ s.data

/-- All three components of a cache key are free of bar characters. -/
abbrev keyBarFree (k : CacheKey) : Prop :=
  barFree k.text ∧ barFree k.sourceLang ∧ barFree k.targetLang

/-- A cache in which two distinct source keys map to the same translation
text `"Hello"`. -/
def cacheDup : Cache :=
  [(⟨"hello", "en", "es"⟩, ⟨"Hello", 1, 0⟩),
   (⟨"hallo", "de", "es"⟩, ⟨"Hello", 2, 1⟩),
   (⟨"adios", "es", "en"⟩, ⟨"Adiós", 3, 2⟩)]

/-! ## Shared dictionary lemmas -/

theorem lookup_dictInsert_self {κ ν : Type} [DecidableEq κ] (k : κ) (v : ν)
    (l : List (κ × ν)) : lookup k (dictInsert k v l) = some v := by
  induction l with
  | nil => simp [dictInsert, lookup]
  | cons kv rest ih =>
    by_cases h : kv.1 = k
    · simp [dictInsert, lookup, h]
    · simp [dictInsert, lookup, h, ih]

theorem lookup_dictInsert_ne {κ ν : Type} [DecidableEq κ] {k k' : κ} (v : ν)
    (l : List (κ × ν)) (h : k' ≠ k) :
    lookup k' (dictInsert k v l) = lookup k' l := by
  induction l with
  | nil => simp [dictInsert, lookup, Ne.symm h]
  | cons kv rest ih =>
    obtain ⟨k1, v1⟩ := kv
    simp only [dictInsert]
    split_ifs with hk
    · subst hk
      simp [lookup, Ne.symm h]
    · simp [lookup, ih]

theorem length_dictInsert_of_lookup {κ ν : Type} [DecidableEq κ] {k : κ}
    (v : ν) {l : List (κ × ν)} {w : ν} (h : lookup k l = some w) :
    (dictInsert k v l).length = l.length := by
  induction l with
  | nil => simp [lookup] at h
  | cons kv rest ih =>
    by_cases hk : kv.1 = k
    · simp [dictInsert, hk]
    · simp only [lookup, hk, if_false] at h
      simp [dictInsert, hk, ih h]

theorem dictInsert_of_not_mem {κ ν : Type} [DecidableEq κ] {k : κ} (v : ν)
    {l : List (κ × ν)} (h : k ∉ l.map Prod.fst) :
    dictInsert k v l = l ++ [(k, v)] := by
  induction l with
  | nil => simp [dictInsert]
  | cons kv rest ih =>
    obtain ⟨k1, v1⟩ := kv
    simp only [List.map_cons, List.mem_cons] at h
    push_neg at h
    simp [dictInsert, Ne.symm h.1, ih h.2]

theorem trim_cache_of_le {maxSize : Nat} {c : Cache}
    (h : c.length ≤ maxSize) : _trim_cache maxSize c = c := by
  simp [_trim_cache, h]

/-!
## C8 — `clean_translation` normalisation
-/

/-- C8: `clean_translation` keeps only the first line of the input, strips
leading bullet and markup characters, extracts the inner text of a
double-asterisk emphasis when one occurs in the line, otherwise strips a
whole-line double-asterisk wrapping and edge asterisks, and returns empty
input unchanged; in particular on the specification's three examples (and
on an input exercising the emphasis-extraction and first-line-only
clauses together). -/
theorem clean_translation_normalisation :
    clean_translation "" = some "" ∧
    clean_translation "**Hola**" = some "Hola" ∧
    clean_translation "- **Adiós amigo**\nextra line" = some "Adiós amigo" ∧
    clean_translation "plain text" = some "plain text" ∧
    clean_translation "x **a** y\nsecond line" = some "a" := by
  decide

/-!
## C1 — generation ordering of delivered results
-/

/-- C1 counterexample: request G1 = ("uno","es","en") is submitted before
G2 = ("dos","es","en"); both hit the cache; G2's result "two" is delivered
first and G1's result "one" second.  The final visible label is "one" —
G1's late result overwrites G2's, because `_display_translation`
unconditionally replaces the label and no generation number exists in the
code.  The claim predicts the final label "two". -/
theorem stale_result_overwrites_cex :
    TranslationTask_run envDead cacheTwo "dos" "es" "en" = "two" ∧
    TranslationTask_run envDead cacheTwo "uno" "es" "en" = "one" ∧
    deliverAll ""
      [TranslationTask_run envDead cacheTwo "dos" "es" "en",
       TranslationTask_run envDead cacheTwo "uno" "es" "en"] = "one" ∧
    ("one" : String) ≠ "two" := by
  decide

/-- C1 amended: the final visible result equals the result delivered
*last*, irrespective of submission order or of which request is newer;
earlier-submitted requests whose results arrive later do overwrite the
newer result (the code performs no generation tracking and discards
nothing). -/
theorem display_shows_last_delivery (label : String) (rs : List String)
    (r : String) : deliverAll label (rs ++ [r]) = r := by
  simp [deliverAll, List.foldl_append, _display_translation]

/-!
## C4 — rate limiter spacing
-/

/-- C4 counterexample: the read-sleep-write sequence of `_wait_rate_limit`
is not atomic (the code takes no lock and `time.sleep` runs between the
read of `LAST_REQUEST_TIME` and its write), so two concurrent callers can
both read the same stale timestamp.  With `LAST_REQUEST_TIME = 0`, a
caller entering at time 0 and one entering at time 1/2 are both permitted
to proceed at time 1: the elapsed time between the two permitted calls is
0, below the minimum interval. -/
theorem rate_limit_concurrent_cex :
    concurrentIssueTimes 0 0 (1/2) = (1, 1) ∧
    (concurrentIssueTimes 0 0 (1/2)).2 - (concurrentIssueTimes 0 0 (1/2)).1 <
      MIN_REQUEST_INTERVAL := by
  norm_num [concurrentIssueTimes, issueTime, _wait_rate_limit,
    MIN_REQUEST_INTERVAL]

/-- C4 amended: the guarantee holds for serialized callers.  When a caller
reads the timestamp `last` written by the previous permitted call and
enters at time `now ≥ last`, its own permitted call happens at least the
minimum interval after `last`; a caller arriving before the interval has
elapsed sleeps exactly the remaining delta; and the timestamp written
equals the time the caller proceeds, immediately before the request is
issued (`now` plus the sleep).  With unsynchronized concurrent callers the
guarantee fails (see the counterexample). -/
theorem rate_limit_sequential (now last : ℚ) (_h : last ≤ now) :
    MIN_REQUEST_INTERVAL ≤ issueTime now last - last ∧
    (now - last < MIN_REQUEST_INTERVAL →
      (_wait_rate_limit now last).1 = MIN_REQUEST_INTERVAL - (now - last)) ∧
    issueTime now last = now + (_wait_rate_limit now last).1 := by
  by_cases h1 : now - last < MIN_REQUEST_INTERVAL
  · have e : _wait_rate_limit now last =
        (MIN_REQUEST_INTERVAL - (now - last),
         now + (MIN_REQUEST_INTERVAL - (now - last))) := by
      simp [_wait_rate_limit, h1]
    refine ⟨?_, fun _ => by rw [e], by rw [issueTime, e]⟩
    rw [issueTime, e]
    show MIN_REQUEST_INTERVAL ≤ now + (MIN_REQUEST_INTERVAL - (now - last)) - last
    linarith
  · have e : _wait_rate_limit now last = (0, now) := by
      simp only [_wait_rate_limit, if_neg h1]
    refine ⟨?_, fun hc => absurd hc h1, ?_⟩
    · rw [issueTime, e]
      show MIN_REQUEST_INTERVAL ≤ now - last
      linarith [not_lt.mp h1]
    · rw [issueTime, e]
      show now = now + 0
      ring

/-- Witness for the amended C4 theorem at `now = 1/2`, `last = 0`. -/
theorem rate_limit_sequential_witness :
    MIN_REQUEST_INTERVAL ≤ issueTime (1/2) 0 - 0 ∧
    ((1 : ℚ)/2 - 0 < MIN_REQUEST_INTERVAL →
      (_wait_rate_limit (1/2) 0).1 = MIN_REQUEST_INTERVAL - (1/2 - 0)) ∧
    issueTime (1/2) 0 = 1/2 + (_wait_rate_limit (1/2) 0).1 :=
  rate_limit_sequential (1/2) 0 (by norm_num)

/-! ## Lemmas about the primary retry loop -/

theorem primaryLoop_calls_le (env : Env) :
    ∀ fuel attempt,
      ((primaryLoop env fuel attempt).2.countP isPrimaryCall) ≤ fuel := by
  intro fuel
  induction fuel with
  | zero => intro attempt; simp [primaryLoop]
  | succ n ih =>
    intro attempt
    cases hp : env.primary attempt with
    | ok raw =>
      by_cases hraw : pyStrip raw.data = []
      · simp only [primaryLoop, hp, if_pos hraw, List.countP_cons]
        have := ih (attempt + 1)
        simp [isPrimaryCall]
        omega
      · simp [primaryLoop, hp, if_neg hraw, List.countP_cons, isPrimaryCall]
    | httpErr code =>
      by_cases hc : code = 429 ∧ attempt < 2
      · simp only [primaryLoop, hp, if_pos hc, List.countP_cons]
        have := ih (attempt + 1)
        simp [isPrimaryCall]
        omega
      · simp [primaryLoop, hp, if_neg hc, List.countP_cons, isPrimaryCall]
    | failure => simp [primaryLoop, hp, List.countP_cons, isPrimaryCall]

theorem primaryLoop_none_of_failed (env : Env) :
    ∀ fuel attempt,
      (∀ i, attempt ≤ i → i < attempt + fuel → primaryFailed (env.primary i)) →
      (primaryLoop env fuel attempt).1 = none := by
  intro fuel
  induction fuel with
  | zero => intro attempt _; simp [primaryLoop]
  | succ n ih =>
    intro attempt h
    have h0 : primaryFailed (env.primary attempt) := h attempt le_rfl (by omega)
    have hrest : ∀ i, attempt + 1 ≤ i → i < attempt + 1 + n →
        primaryFailed (env.primary i) := fun i h1 h2 => h i (by omega) (by omega)
    cases hp : env.primary attempt with
    | ok raw =>
      have hraw : pyStrip raw.data = [] := by rw [hp] at h0; exact h0
      simp [primaryLoop, hp, if_pos hraw, ih (attempt + 1) hrest]
    | httpErr code =>
      by_cases hc : code = 429 ∧ attempt < 2
      · simp [primaryLoop, hp, if_pos hc, ih (attempt + 1) hrest]
      · simp [primaryLoop, hp, if_neg hc]
    | failure => simp [primaryLoop, hp]

/-!
## C5 — retry policy under HTTP 429
-/

/-- C5: the primary provider is attempted at most 3 times in any run of
`translate_text`; and on a cache miss where all three attempts answer
HTTP 429, the run performs exactly two backoff sleeps of `2 ** attempt + 1`
time units — after attempts 0 and 1, never after the final attempt — and
then falls through to the secondary provider. -/
theorem retry_backoff_policy :
    (∀ env text sl tl c,
      ((translate_text env text sl tl c).events.countP isPrimaryCall) ≤ 3) ∧
    (∀ env text sl tl c,
      sl ≠ "auto" →
      lookup (⟨text, sl, tl⟩ : CacheKey) c = none →
      (∀ i, i < 3 → env.primary i = .httpErr 429) →
      (translate_text env text sl tl c).events =
        [.rateWait, .primaryCall 0, .backoffSleep (2 ^ 0 + 1),
         .rateWait, .primaryCall 1, .backoffSleep (2 ^ 1 + 1),
         .rateWait, .primaryCall 2] ++
        (if env.googleAvailable then
          (match env.google text sl tl with
           | some _ => [Event.secondaryCall, Event.saved]
           | none => [Event.secondaryCall])
         else [])) := by
  constructor
  · intro env text sl tl c
    cases hL : lookup
        (⟨text, if sl = "auto" then env.detect text else sl, tl⟩ : CacheKey)
        c with
    | some entry => simp [translate_text, hL, isPrimaryCall]
    | none =>
      have hb := primaryLoop_calls_le env 3 0
      cases hr : (primaryAttempts env).1 with
      | some t =>
        simp only [translate_text, hL, hr]
        simpa [List.countP_append, isPrimaryCall, primaryAttempts] using hb
      | none =>
        cases hg : env.googleAvailable with
        | false =>
          simp only [translate_text, hL, hr, hg]
          simpa [primaryAttempts] using hb
        | true =>
          cases hgt : env.google text
              (if sl = "auto" then env.detect text else sl) tl with
          | none =>
            simp only [translate_text, hL, hr, hg, hgt]
            simpa [List.countP_append, isPrimaryCall, primaryAttempts] using hb
          | some t =>
            simp only [translate_text, hL, hr, hg, hgt]
            simpa [List.countP_append, isPrimaryCall, primaryAttempts] using hb
  · intro env text sl tl c hsl hmiss h429
    have e : primaryAttempts env = (none,
        [.rateWait, .primaryCall 0, .backoffSleep 2,
         .rateWait, .primaryCall 1, .backoffSleep 3,
         .rateWait, .primaryCall 2]) := by
      simp [primaryAttempts, primaryLoop, h429 0 (by omega), h429 1 (by omega),
        h429 2 (by omega)]
    have hL : lookup
        (⟨text, if sl = "auto" then env.detect text else sl, tl⟩ : CacheKey)
        c = none := by rw [if_neg hsl]; exact hmiss
    cases hg : env.googleAvailable with
    | false => simp [translate_text, hL, e, hg]
    | true =>
      cases hgt : env.google text
          (if sl = "auto" then env.detect text else sl) tl with
      | none =>
        rw [if_neg hsl] at hgt
        simp [translate_text, hL, hmiss, e, hg, if_neg hsl, hgt]
      | some t =>
        rw [if_neg hsl] at hgt
        simp [translate_text, hL, hmiss, e, hg, if_neg hsl, hgt]

/-- Witness for C5 with the all-429 environment `env429` on an empty
cache. -/
theorem retry_backoff_policy_witness :
    ((translate_text env429 "hola" "es" "en" []).events.countP isPrimaryCall)
        ≤ 3 ∧
    (translate_text env429 "hola" "es" "en" []).events =
      [.rateWait, .primaryCall 0, .backoffSleep (2 ^ 0 + 1),
       .rateWait, .primaryCall 1, .backoffSleep (2 ^ 1 + 1),
       .rateWait, .primaryCall 2] ++
      (if env429.googleAvailable then
        (match env429.google "hola" "es" "en" with
         | some _ => [Event.secondaryCall, Event.saved]
         | none => [Event.secondaryCall])
       else []) :=
  ⟨retry_backoff_policy.1 env429 "hola" "es" "en" [],
   retry_backoff_policy.2 env429 "hola" "es" "en" [] (by decide) rfl
     (fun i _ => rfl)⟩

/-!
## C6 — empty successful responses
-/

/-- C6 counterexample: the primary provider answers a successful but empty
(whitespace-only) response on attempt 0 and `"**Hello**"` on attempt 1.
The code performs a second primary attempt and succeeds with `"Hello"` —
the empty success neither aborts the retry loop nor falls through to the
secondary provider, contradicting the claim that no further primary
attempts happen. -/
theorem empty_response_cex :
    (translate_text envEmptyThenOk "hola" "es" "en" []).result = "Hello" ∧
    (translate_text envEmptyThenOk "hola" "es" "en" []).events =
      [.rateWait, .primaryCall 0, .rateWait, .primaryCall 1, .saved] ∧
    Event.primaryCall 1 ∈
      (translate_text envEmptyThenOk "hola" "es" "en" []).events ∧
    Event.secondaryCall ∉
      (translate_text envEmptyThenOk "hola" "es" "en" []).events := by
  decide

/-- C6 amended: a successful-but-empty primary response is treated as a
failed attempt, but it does not abort the retry loop: the loop silently
proceeds to the next attempt, without a backoff sleep; only after all
three attempts have failed does control fall through to the secondary
provider. -/
theorem empty_response_retries (env : Env) (text sl tl : String) (c : Cache)
    (hsl : sl ≠ "auto")
    (hmiss : lookup (⟨text, sl, tl⟩ : CacheKey) c = none)
    (hempty : ∀ i, i < 3 → ∃ raw, env.primary i = .ok raw ∧
      pyStrip raw.data = []) :
    (translate_text env text sl tl c).events =
      [.rateWait, .primaryCall 0, .rateWait, .primaryCall 1,
       .rateWait, .primaryCall 2] ++
      (if env.googleAvailable then
        (match env.google text sl tl with
         | some _ => [Event.secondaryCall, Event.saved]
         | none => [Event.secondaryCall])
       else []) ∧
    (translate_text env text sl tl c).result =
      (if env.googleAvailable then (env.google text sl tl).getD text
       else text) := by
  obtain ⟨r0, hp0, hs0⟩ := hempty 0 (by omega)
  obtain ⟨r1, hp1, hs1⟩ := hempty 1 (by omega)
  obtain ⟨r2, hp2, hs2⟩ := hempty 2 (by omega)
  have e : primaryAttempts env = (none,
      [.rateWait, .primaryCall 0, .rateWait, .primaryCall 1,
       .rateWait, .primaryCall 2]) := by
    simp [primaryAttempts, primaryLoop, hp0, hp1, hp2, hs0, hs1, hs2]
  have hL : lookup
      (⟨text, if sl = "auto" then env.detect text else sl, tl⟩ : CacheKey)
      c = none := by rw [if_neg hsl]; exact hmiss
  cases hg : env.googleAvailable with
  | false => simp [translate_text, hL, e, hg]
  | true =>
    cases hgt : env.google text
        (if sl = "auto" then env.detect text else sl) tl with
    | none =>
      rw [if_neg hsl] at hgt
      simp [translate_text, hL, hmiss, e, hg, if_neg hsl, hgt]
    | some t =>
      rw [if_neg hsl] at hgt
      simp [translate_text, hL, hmiss, e, hg, if_neg hsl, hgt]

/-- Witness for the amended C6 theorem with the all-empty environment
`envAllEmpty` on an empty cache. -/
theorem empty_response_retries_witness :
    (translate_text envAllEmpty "hola" "es" "en" []).events =
      [.rateWait, .primaryCall 0, .rateWait, .primaryCall 1,
       .rateWait, .primaryCall 2] ++
      (if envAllEmpty.googleAvailable then
        (match envAllEmpty.google "hola" "es" "en" with
         | some _ => [Event.secondaryCall, Event.saved]
         | none => [Event.secondaryCall])
       else []) ∧
    (translate_text envAllEmpty "hola" "es" "en" []).result =
      (if envAllEmpty.googleAvailable then
        (envAllEmpty.google "hola" "es" "en").getD "hola"
       else "hola") :=
  empty_response_retries envAllEmpty "hola" "es" "en" [] (by decide) rfl
    (fun i _ => ⟨" ", rfl, by decide⟩)

/-!
## C7 — graceful degradation
-/

/-- C7: `translate_text` is total (every internal exception is caught in
the source; the embedding returns a value on every input), and whenever
the resolved key misses the cache, every primary attempt fails (exception,
HTTP error, or empty response) and the secondary provider is unavailable
or raises, the call returns the original input text unchanged and leaves
the cache untouched. -/
theorem graceful_fallback (env : Env) (text sl tl : String) (c : Cache)
    (hmiss : lookup
      (⟨text, if sl = "auto" then env.detect text else sl, tl⟩ : CacheKey)
      c = none)
    (hfail : ∀ i, i < 3 → primaryFailed (env.primary i))
    (hsec : env.googleAvailable = false ∨
      env.google text (if sl = "auto" then env.detect text else sl) tl
        = none) :
    (translate_text env text sl tl c).result = text ∧
    (translate_text env text sl tl c).cache = c := by
  have e : (primaryAttempts env).1 = none :=
    primaryLoop_none_of_failed env 3 0 (fun i _ h2 => hfail i (by omega))
  cases hr : primaryAttempts env with
  | mk o evs =>
    rw [hr] at e
    subst e
    rcases hsec with hg | hgt
    · simp [translate_text, hmiss, hr, hg]
    · cases hg : env.googleAvailable with
      | false => simp [translate_text, hmiss, hr, hg]
      | true => simp [translate_text, hmiss, hr, hg, hgt]

/-- Witness for C7: the dead environment (primary always raises, no
fallback provider available) on an empty cache returns the input
unchanged. -/
theorem graceful_fallback_witness :
    (translate_text envDead "hola" "es" "en" []).result = "hola" ∧
    (translate_text envDead "hola" "es" "en" []).cache = [] :=
  graceful_fallback envDead "hola" "es" "en" [] rfl
    (fun i _ => by cases i <;> trivial) (Or.inl rfl)

/-!
## C3 — cache hit path
-/

/-- C3: when the exact `(text, source_lang, target_lang)` triple is
present in the cache (and the cache satisfies its size invariant),
`translate_text` returns the stored translation, increments the entry's
use count by exactly 1, refreshes its timestamp to the current time,
leaves every other entry unchanged, and performs exactly one
`_save_cache` — no rate-limiter wait and no provider call. -/
theorem cache_hit_path (env : Env) (text sl tl : String) (c : Cache)
    (entry : CacheEntry) (hsl : sl ≠ "auto")
    (hhit : lookup (⟨text, sl, tl⟩ : CacheKey) c = some entry)
    (hlen : c.length ≤ MAX_CACHE_SIZE) :
    (translate_text env text sl tl c).result = entry.translation ∧
    lookup (⟨text, sl, tl⟩ : CacheKey) (translate_text env text sl tl c).cache
      = some ⟨entry.translation, entry.count + 1, env.now⟩ ∧
    (∀ k : CacheKey, k ≠ ⟨text, sl, tl⟩ →
      lookup k (translate_text env text sl tl c).cache = lookup k c) ∧
    (translate_text env text sl tl c).events = [.saved] := by
  have hkey : (⟨text, if sl = "auto" then env.detect text else sl, tl⟩ :
      CacheKey) = ⟨text, sl, tl⟩ := by rw [if_neg hsl]
  have ht : (_save_cache (dictInsert (⟨text, sl, tl⟩ : CacheKey)
        (⟨entry.translation, entry.count + 1, env.now⟩ : CacheEntry) c)).1
      = dictInsert (⟨text, sl, tl⟩ : CacheKey)
        ⟨entry.translation, entry.count + 1, env.now⟩ c := by
    simp only [_save_cache]
    exact trim_cache_of_le
      (by rw [length_dictInsert_of_lookup _ hhit]; exact hlen)
  simp only [translate_text, hkey, hhit]
  refine ⟨trivial, ?_, ?_, trivial⟩
  · rw [ht]
    exact lookup_dictInsert_self _ _ _
  · intro k hk
    rw [ht]
    exact lookup_dictInsert_ne _ _ hk

/-- Witness for C3: a hit on the first entry of the two-entry cache. -/
theorem cache_hit_path_witness :
    (translate_text envDead "uno" "es" "en" cacheTwo).result = "one" ∧
    lookup (⟨"uno", "es", "en"⟩ : CacheKey)
      (translate_text envDead "uno" "es" "en" cacheTwo).cache
      = some ⟨"one", 1 + 1, envDead.now⟩ ∧
    (∀ k : CacheKey, k ≠ ⟨"uno", "es", "en"⟩ →
      lookup k (translate_text envDead "uno" "es" "en" cacheTwo).cache
        = lookup k cacheTwo) ∧
    (translate_text envDead "uno" "es" "en" cacheTwo).events = [.saved] := by
  have h := cache_hit_path envDead "uno" "es" "en" cacheTwo ⟨"one", 1, 0⟩
    (by decide) (by decide) (by decide)
  exact h

/-! ## Shared lemmas about caches with distinct keys -/

theorem eq_of_mem_of_nodup_keys {κ ν : Type} [DecidableEq κ]
    {l : List (κ × ν)} (hnd : (l.map Prod.fst).Nodup) {a b : κ × ν}
    (ha : a ∈ l) (hb : b ∈ l) (h : a.1 = b.1) : a = b := by
  induction l with
  | nil => cases ha
  | cons kv rest ih =>
    simp only [List.map_cons, List.nodup_cons] at hnd
    rcases List.mem_cons.mp ha with ha1 | ha2 <;>
      rcases List.mem_cons.mp hb with hb1 | hb2
    · rw [ha1, hb1]
    · exfalso
      apply hnd.1
      rw [ha1] at h
      rw [h]
      exact List.mem_map_of_mem _ hb2
    · exfalso
      apply hnd.1
      rw [hb1] at h
      rw [← h]
      exact List.mem_map_of_mem _ ha2
    · exact ih hnd.2 ha2 hb2

theorem foldl_pop_eq_filter (keys : List CacheKey) (c : Cache) :
    keys.foldl (fun acc k => acc.filter (fun kv => decide (kv.1 ≠ k))) c
      = c.filter (fun kv => decide (kv.1 ∉ keys)) := by
  induction keys generalizing c with
  | nil => simp
  | cons k ks ih =>
    simp only [List.foldl_cons, ih, List.filter_filter]
    apply List.filter_congr
    intro kv _
    simp only [List.mem_cons, decide_not, Bool.and_comm]
    simp [not_or, Decidable.not_not]

/-!
## C10 — `remove_translation_item` removes every matching entry
-/

/-- C10: for every translation string `t` and every cache (with its dict
key uniqueness and its size invariant), `remove_translation_item t`
deletes exactly the entries whose stored translation equals `t` — all
matching entries across distinct source keys — and leaves every other
entry unchanged, in order. -/
theorem remove_translation_item_spec (t : String) (c : Cache)
    (hnd : (c.map Prod.fst).Nodup) (hlen : c.length ≤ MAX_CACHE_SIZE) :
    remove_translation_item t c
      = c.filter (fun kv => decide (¬ kv.2.translation = t)) := by
  have hiff : ∀ kv, kv ∈ c →
      (kv.1 ∈ (c.filter (fun kv => decide (kv.2.translation = t))).map Prod.fst
        ↔ kv.2.translation = t) := by
    intro kv hm
    constructor
    · intro hmem
      obtain ⟨kv2, hkv2, hfst⟩ := List.mem_map.mp hmem
      obtain ⟨hkv2c, hkv2t⟩ := List.mem_filter.mp hkv2
      have : kv2 = kv := eq_of_mem_of_nodup_keys hnd hkv2c hm hfst
      subst this
      exact of_decide_eq_true hkv2t
    · intro ht
      exact List.mem_map_of_mem _ (List.mem_filter.mpr ⟨hm, by simp [ht]⟩)
  have hfold := foldl_pop_eq_filter
    ((c.filter (fun kv => decide (kv.2.translation = t))).map Prod.fst) c
  have hfilter : c.filter (fun kv => decide (kv.1 ∉
      (c.filter (fun kv => decide (kv.2.translation = t))).map Prod.fst))
      = c.filter (fun kv => decide (¬ kv.2.translation = t)) := by
    apply List.filter_congr
    intro kv hm
    simp only [decide_eq_decide]
    exact not_congr (hiff kv hm)
  by_cases hk : (c.filter (fun kv => decide (kv.2.translation = t))).map
      Prod.fst = []
  · rw [remove_translation_item, if_pos hk]
    have : ∀ kv ∈ c, ¬ kv.2.translation = t := by
      intro kv hm ht
      have := (hiff kv hm).mpr ht
      rw [hk] at this
      cases this
    exact (List.filter_eq_self.mpr (fun kv hm => decide_eq_true (this kv hm))).symm
  · rw [remove_translation_item, if_neg hk, hfold, hfilter]
    have hlen2 : (c.filter (fun kv => decide (¬ kv.2.translation = t))).length
        ≤ MAX_CACHE_SIZE := le_trans (List.length_filter_le _ _) hlen
    show (_save_cache _).1 = _
    simp only [_save_cache]
    exact trim_cache_of_le hlen2

/-- Witness for C10: removing `"Hello"` from a cache in which two distinct
source keys both map to `"Hello"` removes both entries and keeps the
third. -/
theorem remove_translation_item_spec_witness :
    remove_translation_item "Hello" cacheDup
      = cacheDup.filter (fun kv => decide (¬ kv.2.translation = "Hello")) :=
  remove_translation_item_spec "Hello" cacheDup (by decide) (by decide)

/-!
## C2 — cache size bound and eviction policy
-/

theorem trimLe_trans : ∀ a b c, trimLe a b = true → trimLe b c = true →
    trimLe a c = true := by
  intro a b c hab hbc
  simp only [trimLe, Bool.or_eq_true, Bool.and_eq_true, decide_eq_true_eq]
    at hab hbc ⊢
  omega

theorem trimLe_total : ∀ a b, (trimLe a b || trimLe b a) = true := by
  intro a b
  simp only [trimLe, Bool.or_eq_true, Bool.and_eq_true, decide_eq_true_eq]
  omega

/-- C2: after `_save_cache` — the final step of every mutating cache
operation — the cache holds at most `MAX_CACHE_SIZE` (15) entries; exactly
the surplus is evicted (the result has `min length 15` entries, all drawn
from the original cache); and every evicted entry ranks at or below every
kept entry in the lexicographic `(useCount, lastUsedAt)` order — no
higher-ranked entry is ever evicted. -/
theorem trim_cache_spec (c : Cache) (hnd : (c.map Prod.fst).Nodup) :
    ((_save_cache c).1).length ≤ MAX_CACHE_SIZE ∧
    ((_save_cache c).1).length = min c.length MAX_CACHE_SIZE ∧
    (∀ kv, kv ∈ (_save_cache c).1 → kv ∈ c) ∧
    (∀ e, e ∈ c → e ∉ (_save_cache c).1 → ∀ k, k ∈ (_save_cache c).1 →
      e.2.count < k.2.count ∨
        (e.2.count = k.2.count ∧ e.2.time ≤ k.2.time)) := by
  by_cases hlen : c.length ≤ MAX_CACHE_SIZE
  · have e : (_save_cache c).1 = c := by
      simp only [_save_cache]
      exact trim_cache_of_le hlen
    rw [e]
    exact ⟨hlen, (min_eq_left hlen).symm, fun kv h => h,
      fun e1 he hne => absurd he hne⟩
  · push_neg at hlen
    have hsave : (_save_cache c).1 =
        c.filter (fun kv => decide (kv.1 ∉
          ((c.mergeSort trimLe).drop MAX_CACHE_SIZE).map Prod.fst)) := by
      simp only [_save_cache, _trim_cache]
      rw [if_neg (not_le.mpr hlen)]
    rw [hsave]
    have hperm := List.mergeSort_perm c trimLe
    have hpw : (c.mergeSort trimLe).Pairwise (fun a b => trimLe a b = true) :=
      List.sorted_mergeSort trimLe_trans trimLe_total c
    have hnd2 : ((c.mergeSort trimLe).map Prod.fst).Nodup :=
      ((hperm.map Prod.fst).nodup_iff).mpr hnd
    have hsplit : (c.mergeSort trimLe).take MAX_CACHE_SIZE ++
        (c.mergeSort trimLe).drop MAX_CACHE_SIZE = c.mergeSort trimLe :=
      List.take_append_drop _ _
    have hnd3 : (((c.mergeSort trimLe).take MAX_CACHE_SIZE).map Prod.fst ++
        ((c.mergeSort trimLe).drop MAX_CACHE_SIZE).map Prod.fst).Nodup := by
      rw [← List.map_append, hsplit]
      exact hnd2
    obtain ⟨hndK, hndE, hdisj⟩ := List.nodup_append.mp hnd3
    have hcross : ∀ x ∈ (c.mergeSort trimLe).take MAX_CACHE_SIZE,
        ∀ y ∈ (c.mergeSort trimLe).drop MAX_CACHE_SIZE, trimLe x y = true := by
      have hpw2 := hpw
      rw [← hsplit] at hpw2
      exact (List.pairwise_append.mp hpw2).2.2
    have hA : ∀ kv, kv ∈ c →
        kv.1 ∉ ((c.mergeSort trimLe).drop MAX_CACHE_SIZE).map Prod.fst →
        kv ∈ (c.mergeSort trimLe).take MAX_CACHE_SIZE := by
      intro kv hm hnot
      have hms : kv ∈ c.mergeSort trimLe := hperm.mem_iff.mpr hm
      rw [← hsplit] at hms
      rcases List.mem_append.mp hms with h1 | h2
      · exact h1
      · exact absurd (List.mem_map_of_mem _ h2) hnot
    have hB : ∀ kv, kv ∈ c →
        kv.1 ∈ ((c.mergeSort trimLe).drop MAX_CACHE_SIZE).map Prod.fst →
        kv ∈ (c.mergeSort trimLe).drop MAX_CACHE_SIZE := by
      intro kv hm hin
      have hms : kv ∈ c.mergeSort trimLe := hperm.mem_iff.mpr hm
      rw [← hsplit] at hms
      rcases List.mem_append.mp hms with h1 | h2
      · exact absurd hin (hdisj (List.mem_map_of_mem _ h1))
      · exact h2
    have hndF : ((c.filter (fun kv => decide (kv.1 ∉
        ((c.mergeSort trimLe).drop MAX_CACHE_SIZE).map Prod.fst))).map
          Prod.fst).Nodup :=
      hnd.sublist ((List.filter_sublist c).map Prod.fst)
    have hsubK : ∀ a, a ∈ (c.filter (fun kv => decide (kv.1 ∉
        ((c.mergeSort trimLe).drop MAX_CACHE_SIZE).map Prod.fst))).map
          Prod.fst →
        a ∈ ((c.mergeSort trimLe).take MAX_CACHE_SIZE).map Prod.fst := by
      intro a ha
      obtain ⟨kv, hkv, rfl⟩ := List.mem_map.mp ha
      obtain ⟨hc1, hp⟩ := List.mem_filter.mp hkv
      exact List.mem_map_of_mem _ (hA kv hc1 (of_decide_eq_true hp))
    have hlenK : ((c.mergeSort trimLe).take MAX_CACHE_SIZE).length
        = MAX_CACHE_SIZE := by
      rw [List.length_take, List.length_mergeSort]
      omega
    have hup : (c.filter (fun kv => decide (kv.1 ∉
        ((c.mergeSort trimLe).drop MAX_CACHE_SIZE).map Prod.fst))).length
        ≤ MAX_CACHE_SIZE := by
      have h1 := (hndF.subperm hsubK).length_le
      simp only [List.length_map] at h1
      omega
    have hsupK : ∀ a,
        a ∈ ((c.mergeSort trimLe).take MAX_CACHE_SIZE).map Prod.fst →
        a ∈ (c.filter (fun kv => decide (kv.1 ∉
          ((c.mergeSort trimLe).drop MAX_CACHE_SIZE).map Prod.fst))).map
            Prod.fst := by
      intro a ha
      obtain ⟨kv, hkv, rfl⟩ := List.mem_map.mp ha
      have hkvc : kv ∈ c :=
        hperm.mem_iff.mp ((List.take_sublist _ _).subset hkv)
      have hnotE : kv.1 ∉
          ((c.mergeSort trimLe).drop MAX_CACHE_SIZE).map Prod.fst :=
        fun hb => hdisj (List.mem_map_of_mem _ hkv) hb
      exact List.mem_map_of_mem _
        (List.mem_filter.mpr ⟨hkvc, decide_eq_true hnotE⟩)
    have hlow : MAX_CACHE_SIZE ≤ (c.filter (fun kv => decide (kv.1 ∉
        ((c.mergeSort trimLe).drop MAX_CACHE_SIZE).map Prod.fst))).length := by
      have h1 := (hndK.subperm hsupK).length_le
      simp only [List.length_map] at h1
      omega
    refine ⟨hup, ?_, fun kv h => List.mem_of_mem_filter h, ?_⟩
    · rw [min_eq_right (le_of_lt hlen)]
      omega
    · intro e he hne k hk
      have heE : e.1 ∈
          ((c.mergeSort trimLe).drop MAX_CACHE_SIZE).map Prod.fst := by
        by_contra hc2
        exact hne (List.mem_filter.mpr ⟨he, decide_eq_true hc2⟩)
      have heD := hB e he heE
      obtain ⟨hkc, hkp⟩ := List.mem_filter.mp hk
      have hkT := hA k hkc (of_decide_eq_true hkp)
      have hle := hcross k hkT e heD
      simp only [trimLe, Bool.or_eq_true, Bool.and_eq_true,
        decide_eq_true_eq] at hle
      omega

/-!
## C9 — persistence round-trip
-/

theorem splitBars_no_bar : ∀ (t : List Char), '|' ∉ t → splitBars t = [t]
  | [], _ => rfl
  | [_], _ => rfl
  | c1 :: c2 :: rest, h => by
    have h1 : ¬(c1 = '|' ∧ c2 = '|') := by
      rintro ⟨e1, _⟩
      exact h (by rw [← e1]; exact List.mem_cons_self c1 _)
    have h2 : '|' ∉ c2 :: rest := fun hm => h (List.mem_cons_of_mem _ hm)
    simp only [splitBars, if_neg h1, splitBars_no_bar (c2 :: rest) h2]

theorem splitBars_append : ∀ (t rest : List Char), '|' ∉ t →
    splitBars (t ++ '|' :: '|' :: rest) = t :: splitBars rest
  | [], rest, _ => by simp [splitBars]
  | [c], rest, h => by
    have hc : ¬c = '|' := by
      intro e1
      exact h (by rw [← e1]; exact List.mem_cons_self c [])
    simp [splitBars, hc]
  | c1 :: c2 :: t', rest, h => by
    have h1 : ¬(c1 = '|' ∧ c2 = '|') := by
      rintro ⟨e1, _⟩
      exact h (by rw [← e1]; exact List.mem_cons_self c1 _)
    have h2 : '|' ∉ c2 :: t' := fun hm => h (List.mem_cons_of_mem _ hm)
    have ihh := splitBars_append (c2 :: t') rest h2
    simp only [List.cons_append, List.append_eq] at ihh
    simp only [List.cons_append, List.append_eq, splitBars, if_neg h1, ihh]

theorem stringMk_data (s : String) : String.mk s.data = s := rfl

/-- Splitting a `||`-joined key with bar-free components recovers exactly
the three components. -/
theorem splitBars_joinKey {k : CacheKey} (h : keyBarFree k) :
    (splitBars (joinKey k).data).map (fun cs => String.mk cs)
      = [k.text, k.sourceLang, k.targetLang] := by
  have hd : (joinKey k).data = k.text.data ++
      '|' :: '|' :: (k.sourceLang.data ++ '|' :: '|' :: k.targetLang.data) := by
    simp [joinKey, String.data_append]
  rw [hd, splitBars_append _ _ h.1, splitBars_append _ _ h.2.1,
    splitBars_no_bar _ h.2.2]
  simp [stringMk_data]

/-- The dict comprehension of `_save_cache` is a plain map when the joined
keys are pairwise distinct. -/
theorem serializeCache_eq_map : ∀ (c : Cache) (acc : CacheFile),
    ((acc.map Prod.fst) ++ c.map (fun kv => joinKey kv.1)).Nodup →
    c.foldl (fun acc kv => dictInsert (joinKey kv.1) kv.2 acc) acc
      = acc ++ c.map (fun kv => (joinKey kv.1, kv.2)) := by
  intro c
  induction c with
  | nil => intro acc _; simp
  | cons kv rest ih =>
    intro acc h
    have hnot : joinKey kv.1 ∉ acc.map Prod.fst := by
      intro hin
      exact (List.nodup_append.mp h).2.2 hin (by simp)
    simp only [List.foldl_cons, dictInsert_of_not_mem _ hnot]
    rw [ih (acc ++ [(joinKey kv.1, kv.2)]) (by
      simp only [List.map_append, List.map_cons] at h ⊢
      simpa [List.append_assoc] using h)]
    simp

/-- Loading a file that is the image of a bar-free, distinct-key cache
reconstructs that cache. -/
theorem loadCache_of_map : ∀ (c : Cache) (acc : Cache),
    (∀ kv ∈ c, keyBarFree kv.1) →
    ((acc ++ c).map Prod.fst).Nodup →
    (c.map (fun kv => (joinKey kv.1, kv.2))).foldl
      (fun acc kv =>
        match (splitBars kv.1.data).map (fun cs => String.mk cs) with
        | [t, s, g] => dictInsert ⟨t, s, g⟩ kv.2 acc
        | _ => acc) acc
    = acc ++ c := by
  intro c
  induction c with
  | nil => intro acc _ _; simp
  | cons kv rest ih =>
    intro acc hbar hnd
    have hsplit := splitBars_joinKey (hbar kv (List.mem_cons_self kv rest))
    have hnot : kv.1 ∉ acc.map Prod.fst := by
      intro hin
      have h2 : ((acc.map Prod.fst) ++
          (kv.1 :: rest.map Prod.fst)).Nodup := by
        simpa using hnd
      exact (List.nodup_append.mp h2).2.2 hin (by simp)
    simp only [List.map_cons, List.foldl_cons, hsplit]
    rw [dictInsert_of_not_mem _ hnot]
    have hnd2 : (((acc ++ [kv]) ++ rest).map Prod.fst).Nodup := by
      simpa [List.append_assoc] using hnd
    rw [ih (acc ++ [kv]) (fun kv2 hm => hbar kv2 (List.mem_cons_of_mem _ hm))
      hnd2]
    simp

/-- C9 counterexample: the persisted key is the plain `||`-join of the
three components, so a bar character in a component corrupts it.  The
one-entry cache with source text `"a|"` (size 1 ≤ 15, distinct keys)
serialises its key to `"a|||b||c"`, which the loader splits as
`["a", "|b", "c"]`: the reloaded cache holds a different key, so the
round-trip does not reconstruct the same mapping. -/
theorem cache_roundtrip_cex :
    cacheBar.length ≤ MAX_CACHE_SIZE ∧
    (cacheBar.map Prod.fst).Nodup ∧
    (_save_cache cacheBar).2 = [("a|||b||c", ⟨"t", 1, 0⟩)] ∧
    loadCache (_save_cache cacheBar).2
      = [(⟨"a", "|b", "c"⟩, ⟨"t", 1, 0⟩)] ∧
    loadCache (_save_cache cacheBar).2 ≠ cacheBar := by
  refine ⟨by decide, by decide, by decide, by decide, by decide⟩

/-- C9 amended: for every cache within the size limit, with pairwise
distinct keys, whose key components contain no `'|'` character (so that
every `||`-joined key splits back into exactly its three components),
writing the cache with `_save_cache` and parsing the written file with the
startup loader reconstructs exactly the original mapping. -/
theorem cache_roundtrip (c : Cache) (hnd : (c.map Prod.fst).Nodup)
    (hlen : c.length ≤ MAX_CACHE_SIZE)
    (hbar : ∀ kv ∈ c, keyBarFree kv.1) :
    loadCache (_save_cache c).2 = c := by
  have hfile : (_save_cache c).2 = serializeCache c := by
    simp only [_save_cache]
    rw [trim_cache_of_le hlen]
  have hjoin : (c.map (fun kv => joinKey kv.1)).Nodup := by
    have : c.map (fun kv => joinKey kv.1)
        = (c.map Prod.fst).map joinKey := by
      rw [List.map_map]
      rfl
    rw [this]
    refine hnd.map_on ?_
    intro x hx y hy hxy
    obtain ⟨kvx, hkvx, rfl⟩ := List.mem_map.mp hx
    obtain ⟨kvy, hkvy, rfl⟩ := List.mem_map.mp hy
    have ex := splitBars_joinKey (hbar kvx hkvx)
    have ey := splitBars_joinKey (hbar kvy hkvy)
    rw [hxy, ey] at ex
    injection ex with e1 ex
    injection ex with e2 ex
    injection ex with e3 _
    have hx2 : kvx.1 = ⟨kvx.1.text, kvx.1.sourceLang, kvx.1.targetLang⟩ := rfl
    rw [hx2, ← e1, ← e2, ← e3]
  have hser : serializeCache c = c.map (fun kv => (joinKey kv.1, kv.2)) := by
    have h1 := serializeCache_eq_map c [] (by simpa using hjoin)
    rw [List.nil_append] at h1
    exact h1
  rw [hfile, hser]
  have h0 := loadCache_of_map c [] hbar (by simpa using hnd)
  rw [List.nil_append] at h0
  exact h0

/-- Witness for the amended C9 theorem on a concrete two-entry bar-free
cache. -/
theorem cache_roundtrip_witness :
    loadCache (_save_cache cacheTwo).2 = cacheTwo :=
  cache_roundtrip cacheTwo (by decide) (by decide) (by decide)

/-- Witness for C2: saving the sixteen-entry cache evicts exactly the
single lowest-ranked entry. -/
theorem trim_cache_spec_witness :
    ((_save_cache cacheSixteen).1).length ≤ MAX_CACHE_SIZE ∧
    ((_save_cache cacheSixteen).1).length =
      min cacheSixteen.length MAX_CACHE_SIZE ∧
    (∀ kv, kv ∈ (_save_cache cacheSixteen).1 → kv ∈ cacheSixteen) ∧
    (∀ e, e ∈ cacheSixteen → e ∉ (_save_cache cacheSixteen).1 →
      ∀ k, k ∈ (_save_cache cacheSixteen).1 →
      e.2.count < k.2.count ∨
        (e.2.count = k.2.count ∧ e.2.time ≤ k.2.time)) :=
  trim_cache_spec cacheSixteen (by decide)

end FastTranslator
